import Mathlib

/-!
Verification of the Matrixle core logic (feedback classifier, digit tracker,
validator, win detector and game-state machine) against its specification.

The game logic is embedded shallowly.  JavaScript numbers occurring in the
game are modelled as rationals (`ℚ`): every numeric value the game can hold
is a finite decimal, `Number.isInteger` becomes the predicate `q.den = 1`,
and equality of numbers is equality in `ℚ`.  JavaScript object maps keyed by
`digit.toString()` are modelled as association lists keyed by the numeric
value itself (on numbers, `toString` is injective, so the key sets are in
bijection).  `undefined` is modelled by `Option`.
-/

set_option autoImplicit false

namespace Matrixle

/-- The three feedback labels, from `type FeedbackColor` in `types/game.ts`:
`'correct' | 'wrong-position' | 'not-in-puzzle'`. -/
inductive FeedbackColor where
  | correct
  | wrongPosition
  | notInPuzzle
deriving DecidableEq, Repr

/-- `Matrix2x2` from `types/game.ts`: four named entries. -/
structure Matrix2x2 where
  a : ℚ
  b : ℚ
  c : ℚ
  d : ℚ
deriving DecidableEq, Repr

/-- `Vector2x1` from `types/game.ts`. -/
structure Vector2x1 where
  e : ℚ
  f : ℚ
deriving DecidableEq, Repr

/-- `Result2x1` from `types/game.ts`. -/
structure Result2x1 where
  g : ℚ
  h : ℚ
deriving DecidableEq, Repr

/-- `Puzzle` from `types/game.ts`. -/
structure Puzzle where
  matrix : Matrix2x2
  vector : Vector2x1
  result : Result2x1
  id : String
  date : String
deriving DecidableEq, Repr

/-- `Guess` from `types/game.ts`.  The JS `timestamp : Date` is modelled as a
natural number; no game logic ever reads it. -/
structure Guess where
  matrix : Matrix2x2
  vector : Vector2x1
  result : Result2x1
  feedback : List FeedbackColor
  timestamp : Nat
deriving DecidableEq, Repr

/-- The eight guess values in canonical order `[a,b,c,d,e,f,g,h]`, as built
by the `guessArray` literals in `generateFeedback` and
`calculateDigitTracker` (`lib/feedback.ts`). -/
def guessValues (guess : Guess) : List ℚ :=
  [guess.matrix.a, guess.matrix.b,
   guess.matrix.c, guess.matrix.d,
   guess.vector.e, guess.vector.f,
   guess.result.g, guess.result.h]

/-- The eight target values in canonical order, as built by the
`targetArray` literal in `generateFeedback` (`lib/feedback.ts`). -/
def puzzleValues (target : Puzzle) : List ℚ :=
  [target.matrix.a, target.matrix.b,
   target.matrix.c, target.matrix.d,
   target.vector.e, target.vector.f,
   target.result.g, target.result.h]

/-- The `targetArray.findIndex((digit, idx) => digit === guessArray[i] &&
!targetUsed[idx])` call in pass 2 of `generateFeedback`: the target list and
the `targetUsed` flags are carried as one list of pairs; the first index
whose value equals `v` and whose used-flag is `false` is returned. -/
def findUnused (v : ℚ) : List (ℚ × Bool) → Option Nat
  | [] => none
  | (t, u) :: rest =>
      if t = v ∧ u = false then some 0
      else (findUnused v rest).map (· + 1)

/-- The `targetUsed[foundIndex] = true` assignment: set the used-flag at
index `j` to `true`. -/
def consume : List (ℚ × Bool) → Nat → List (ℚ × Bool)
  | [], _ => []
  | (t, _) :: rest, 0 => (t, true) :: rest
  | p :: rest, Nat.succ j => p :: consume rest j

/-- Pass 2 of `generateFeedback` (`lib/feedback.ts` lines 157-172): walk the
guess positions in increasing order, paired with the pass-1 feedback entry
(`some correct` for an exact match, `none` for the unset array slot);
positions not already `correct` search the target for an unused matching
slot, which is then consumed. -/
def pass2 : List (ℚ × Option FeedbackColor) → List (ℚ × Bool) → List FeedbackColor
  | [], _ => []
  | (g, f) :: rest, tu =>
      if f = some FeedbackColor.correct then
        FeedbackColor.correct :: pass2 rest tu
      else
        match findUnused g tu with
        | some j => FeedbackColor.wrongPosition :: pass2 rest (consume tu j)
        | none => FeedbackColor.notInPuzzle :: pass2 rest tu

/-- `generateFeedback` from `lib/feedback.ts`: pass 1 marks exact matches
(`feedback[i] = 'correct'`, `targetUsed[i] = true`); pass 2 is run only
after pass 1 is complete over all eight positions. -/
def generateFeedback (guess : Guess) (target : Puzzle) : List FeedbackColor :=
  let guessArray := guessValues guess
  let targetArray := puzzleValues target
  let feedback1 := List.zipWith
    (fun g t => if g = t then some FeedbackColor.correct else (none : Option FeedbackColor))
    guessArray targetArray
  let targetUsed := List.zipWith (fun g t => (t, decide (g = t))) guessArray targetArray
  pass2 (guessArray.zip feedback1) targetUsed

/-- `isWinningGuess` from `lib/feedback.ts`: the conjunction of the eight
positional equalities. -/
def isWinningGuess (guess : Guess) (target : Puzzle) : Bool :=
  guess.matrix.a == target.matrix.a &&
  guess.matrix.b == target.matrix.b &&
  guess.matrix.c == target.matrix.c &&
  guess.matrix.d == target.matrix.d &&
  guess.vector.e == target.vector.e &&
  guess.vector.f == target.vector.f &&
  guess.result.g == target.result.g &&
  guess.result.h == target.result.h

/-! ### Validator (`lib/validation.ts`) -/

/-- `ValidationResult` from `types/game.ts`: `errors?: string[]` is an
optional field, hence `Option (List String)`. -/
structure ValidationResult where
  isValid : Bool
  errors : Option (List String)
deriving DecidableEq, Repr

/-- The numeric branch of `isValidDigit` (`lib/validation.ts`):
`Number.isInteger(input) && input >= 0 && input <= 9`.  On our model of JS
numbers as rationals, `Number.isInteger` is `den = 1`.  (The string branch
of the source function is never reached from the validation entry points,
whose inputs are numbers.) -/
def isValidDigit (input : ℚ) : Bool :=
  input.den == 1 && decide ((0 : ℚ) ≤ input) && decide (input ≤ (9 : ℚ))

/-- `Partial<Matrix2x2>`: each field possibly `undefined`. -/
structure MatrixInput where
  a : Option ℚ
  b : Option ℚ
  c : Option ℚ
  d : Option ℚ
deriving DecidableEq, Repr

/-- `Partial<Vector2x1>`. -/
structure VectorInput where
  e : Option ℚ
  f : Option ℚ
deriving DecidableEq, Repr

/-- `Partial<Result2x1>`. -/
structure ResultInput where
  g : Option ℚ
  h : Option ℚ
deriving DecidableEq, Repr

/-- One iteration of the `forEach` loops in `validateMatrixInputs`: a
missing value pushes a "required" message, a present non-digit pushes a
"must be a digit 0-9" message, a valid digit pushes nothing.
`group` is "Matrix", "Vector" or "Result". -/
def checkField (group label : String) (value : Option ℚ) : List String :=
  match value with
  | none => [group ++ " position " ++ label ++ " is required"]
  | some x =>
      if isValidDigit x then []
      else [group ++ " position " ++ label ++ " must be a digit 0-9"]

/-- `validateMatrixInputs` (`lib/validation.ts`): the error list accumulated
over the fields in source order a,b,c,d,e,f,g,h; `errors` is set only when
non-empty, and `isValid` iff no error was pushed. -/
def validateMatrixInputs (matrix : MatrixInput) (vector : VectorInput)
    (result : ResultInput) : ValidationResult :=
  let errors :=
    checkField "Matrix" "a" matrix.a ++ checkField "Matrix" "b" matrix.b ++
    checkField "Matrix" "c" matrix.c ++ checkField "Matrix" "d" matrix.d ++
    checkField "Vector" "e" vector.e ++ checkField "Vector" "f" vector.f ++
    checkField "Result" "g" result.g ++ checkField "Result" "h" result.h
  { isValid := errors.isEmpty,
    errors := if errors.isEmpty then none else some errors }

/-- `validateMatrixMultiplication` (`lib/validation.ts`):
`g = a*e + b*f` and `h = c*e + d*f`. -/
def validateMatrixMultiplication (matrix : Matrix2x2) (vector : Vector2x1)
    (result : Result2x1) : Bool :=
  decide (matrix.a * vector.e + matrix.b * vector.f = result.g) &&
  decide (matrix.c * vector.e + matrix.d * vector.f = result.h)

/-- The single arithmetic-failure message of `validateCompleteGuess`. -/
def mathErrorMessage : String := "The math doesn\x27t work out! Try again."

/-- The `matrix as Matrix2x2` cast in `validateCompleteGuess`: on the path
where it runs, every field is present, so the default for `none` is never
used. -/
def castMatrix (m : MatrixInput) : Matrix2x2 :=
  ⟨m.a.getD 0, m.b.getD 0, m.c.getD 0, m.d.getD 0⟩

/-- The `vector as Vector2x1` cast. -/
def castVector (v : VectorInput) : Vector2x1 :=
  ⟨v.e.getD 0, v.f.getD 0⟩

/-- The `result as Result2x1` cast. -/
def castResult (r : ResultInput) : Result2x1 :=
  ⟨r.g.getD 0, r.h.getD 0⟩

/-- `validateCompleteGuess` (`lib/validation.ts`): field validation first;
only if it passes is the arithmetic checked, a failure of which yields the
single generic message. -/
def validateCompleteGuess (matrix : MatrixInput) (vector : VectorInput)
    (result : ResultInput) : ValidationResult :=
  let inputValidation := validateMatrixInputs matrix vector result
  if !inputValidation.isValid then
    inputValidation
  else if !validateMatrixMultiplication (castMatrix matrix) (castVector vector)
      (castResult result) then
    { isValid := false, errors := some [mathErrorMessage] }
  else
    { isValid := true, errors := none }

/-! ### Digit tracker (`lib/feedback.ts`) -/

/-- The `Record<string, FeedbackColor>` of `calculateDigitTracker`,
modelled as an association list keyed by the numeric digit value
(JS keys are `digit.toString()`; `toString` is injective on numbers). -/
abbrev DigitRecord := List (ℚ × FeedbackColor)

/-- Property read `digitStatus[key]`: the value at `key`, or `none`
(JS `undefined`) when the key is absent. -/
def recordGet (m : DigitRecord) (key : ℚ) : Option FeedbackColor :=
  (m.find? (fun p => p.1 == key)).map (·.2)

/-- Property write `digitStatus[key] = v`: overwrite an existing key in
place, or append a fresh key. -/
def recordSet (m : DigitRecord) (key : ℚ) (v : FeedbackColor) : DigitRecord :=
  if m.any (fun p => p.1 == key) then
    m.map (fun p => if p.1 == key then (key, v) else p)
  else
    m ++ [(key, v)]

/-- The initialization loop of `calculateDigitTracker`: digits 1 through 9
all start as `'not-in-puzzle'`. -/
def initDigitStatus : DigitRecord :=
  [(1, FeedbackColor.notInPuzzle), (2, FeedbackColor.notInPuzzle),
   (3, FeedbackColor.notInPuzzle), (4, FeedbackColor.notInPuzzle),
   (5, FeedbackColor.notInPuzzle), (6, FeedbackColor.notInPuzzle),
   (7, FeedbackColor.notInPuzzle), (8, FeedbackColor.notInPuzzle),
   (9, FeedbackColor.notInPuzzle)]

/-- The body of the inner `guessArray.forEach` of `calculateDigitTracker`:
`newStatus = guess.feedback[index]` may be `undefined` (`none`) when the
feedback list is shorter than the value list; the update fires when
`newStatus === 'correct'`, or `newStatus === 'wrong-position'` while the
currently stored status is `'not-in-puzzle'`. -/
def digitUpdate (m : DigitRecord) (digit : ℚ) (newStatus : Option FeedbackColor) :
    DigitRecord :=
  match newStatus with
  | none => m
  | some l =>
      if l = FeedbackColor.correct ∨
          (l = FeedbackColor.wrongPosition ∧
            recordGet m digit = some FeedbackColor.notInPuzzle) then
        recordSet m digit l
      else m

/-- The inner `forEach` of `calculateDigitTracker`: each of the eight guess
values, in order, is paired with the feedback entry at its own index. -/
def processValues : DigitRecord → List ℚ → List FeedbackColor → DigitRecord
  | m, [], _ => m
  | m, digit :: rest, [] => processValues (digitUpdate m digit none) rest []
  | m, digit :: rest, l :: ls => processValues (digitUpdate m digit (some l)) rest ls

/-- One iteration of the outer `guesses.forEach` of `calculateDigitTracker`. -/
def processGuess (m : DigitRecord) (guess : Guess) : DigitRecord :=
  processValues m (guessValues guess) guess.feedback

/-- `calculateDigitTracker` (`lib/feedback.ts`): initialize digits 1-9 as
`'not-in-puzzle'`, then fold every guess in order. -/
def calculateDigitTracker (guesses : List Guess) : DigitRecord :=
  guesses.foldl processGuess initDigitStatus

/-- The key list of the digit record. -/
def recordKeys (m : DigitRecord) : List ℚ :=
  m.map (·.1)

/-! ### Game session state (`hooks/useGameState.ts`) -/

/-- `GameStatus` from `hooks/useGameState.ts`. -/
inductive GameStatus where
  | playing
  | won
  | lost
deriving DecidableEq, Repr

/-- `GameState` from `hooks/useGameState.ts`. -/
structure GameState where
  puzzle : Puzzle
  guesses : List Guess
  currentGuess : Nat
  status : GameStatus
  digitTracker : DigitRecord
deriving DecidableEq, Repr

/-- `TEST_PUZZLE` from `hooks/useGameState.ts`. -/
def TEST_PUZZLE : Puzzle :=
  { id := "test-1", date := "2024-01-01",
    matrix := ⟨2, 1, 1, 3⟩, vector := ⟨3, 2⟩, result := ⟨8, 9⟩ }

/-- The initial `useState` value of `useGameState`: note the digit tracker
starts as the EMPTY object, not as `calculateDigitTracker []`. -/
def initialGameState : GameState :=
  { puzzle := TEST_PUZZLE, guesses := [], currentGuess := 0,
    status := GameStatus.playing, digitTracker := [] }

/-- The guess construction inside `submitGuess` (`hooks/useGameState.ts`):
the guess object is built with empty feedback, then its feedback field is
assigned the output of `generateFeedback` against the session's puzzle.
The JS `timestamp: new Date()` is modelled as `0` (never read by any
logic). -/
def attachFeedback (matrix : Matrix2x2) (vector : Vector2x1) (result : Result2x1)
    (puzzle : Puzzle) : Guess :=
  let guess0 : Guess :=
    { matrix := matrix, vector := vector, result := result,
      feedback := [], timestamp := 0 }
  { guess0 with feedback := generateFeedback guess0 puzzle }

/-- `submitGuess` from `hooks/useGameState.ts`: a no-op unless the status
is `playing`; otherwise the feedback-augmented guess is appended, the
tracker recomputed from the full new history, and the status derived. -/
def submitGuess (state : GameState) (matrix : Matrix2x2) (vector : Vector2x1)
    (result : Result2x1) : GameState :=
  if state.status ≠ GameStatus.playing then state
  else
    let guess := attachFeedback matrix vector result state.puzzle
    let newGuesses := state.guesses ++ [guess]
    let newDigitTracker := calculateDigitTracker newGuesses
    let isWin := isWinningGuess guess state.puzzle
    let isGameOver := decide (6 ≤ newGuesses.length)
    let newStatus :=
      if isWin then GameStatus.won
      else if isGameOver then GameStatus.lost
      else GameStatus.playing
    { state with
      guesses := newGuesses,
      currentGuess :=
        if isWin || isGameOver then state.currentGuess
        else state.currentGuess + 1,
      status := newStatus,
      digitTracker := newDigitTracker }

/-- The `handleSubmit` path of `components/GuessRow.tsx`: a complete row of
eight numeric values is validated with `validateCompleteGuess`, and
`onSubmit` (which is the hook's `submitGuess`) runs only when validation
passes; otherwise the game state is untouched. -/
def submitFromUI (state : GameState) (matrix : Matrix2x2) (vector : Vector2x1)
    (result : Result2x1) : GameState :=
  if (validateCompleteGuess
        ⟨some matrix.a, some matrix.b, some matrix.c, some matrix.d⟩
        ⟨some vector.e, some vector.f⟩
        ⟨some result.g, some result.h⟩).isValid then
    submitGuess state matrix vector result
  else state

/-- The session states reachable through the UI: the initial state, a
validated submission, and `resetGame` (which returns the initial state). -/
inductive Reachable : GameState → Prop
  | init : Reachable initialGameState
  | submit {s : GameState} (matrix : Matrix2x2) (vector : Vector2x1)
      (result : Result2x1) :
      Reachable s → Reachable (submitFromUI s matrix vector result)
  | reset {s : GameState} : Reachable s → Reachable initialGameState

/-- A submission event: the three raw guess components. -/
abbrev SubmitEvent := Matrix2x2 × Vector2x1 × Result2x1

/-- Run a sequence of raw `submitGuess` calls. -/
def runSubmits (state : GameState) (events : List SubmitEvent) : GameState :=
  events.foldl (fun s ev => submitGuess s ev.1 ev.2.1 ev.2.2) state

/-! ### Specification-side definitions

The definitions below render the spec's own words (two ordered passes over
a consumed-position set; strictly-better upgrades per digit) and exist to
be compared with the source embeddings above. -/

/-- Rendering the spec's pass 1: the set (as a list) of secret positions
`i ≥ start` consumed by exact matches, i.e. with `guess[i] = secret[i]`. -/
def exactIndices : List ℚ → List ℚ → Nat → List Nat
  | g :: gs, s :: ss, i =>
      if g = s then i :: exactIndices gs ss (i + 1)
      else exactIndices gs ss (i + 1)
  | _, _, _ => []

/-- Rendering the spec's pass-2 scan: the lowest index `j ≥ start` with
`secret[j] = v` and `j` not yet consumed. -/
def firstMatchFrom (consumed : List Nat) (v : ℚ) : List ℚ → Nat → Option Nat
  | [], _ => none
  | s :: ss, j =>
      if s = v ∧ j ∉ consumed then some j
      else firstMatchFrom consumed v ss (j + 1)

/-- The lowest-index unconsumed secret position holding value `v`. -/
def lowestUnconsumed (secret : List ℚ) (consumed : List Nat) (v : ℚ) : Option Nat :=
  firstMatchFrom consumed v secret 0

/-- Rendering the spec's pass 2: positions `i, i+1, ...` are processed in
increasing order; a position with `guess[i] = secret[i]` is labeled
`correct` (it was labeled in pass 1); otherwise the lowest-index
unconsumed secret position holding `guess[i]` is consumed and the position
labeled `wrong-position`, and `not-in-puzzle` if there is none. -/
def classifyGo (secret : List ℚ) : List ℚ → Nat → List Nat → List FeedbackColor
  | [], _, _ => []
  | g :: gs, i, consumed =>
      if secret.get? i = some g then
        FeedbackColor.correct :: classifyGo secret gs (i + 1) consumed
      else
        match lowestUnconsumed secret consumed g with
        | some j => FeedbackColor.wrongPosition :: classifyGo secret gs (i + 1) (j :: consumed)
        | none => FeedbackColor.notInPuzzle :: classifyGo secret gs (i + 1) consumed

/-- The spec's two-pass classifier over plain value sequences: pass 1
consumes all exact positions, and only then does pass 2 begin. -/
def classifySpec (guess secret : List ℚ) : List FeedbackColor :=
  classifyGo secret guess 0 (exactIndices guess secret 0)

/-- The spec's priority order `correct > wrong-position > not-in-puzzle`
as a numeric rank. -/
def rank : FeedbackColor → Nat
  | FeedbackColor.correct => 2
  | FeedbackColor.wrongPosition => 1
  | FeedbackColor.notInPuzzle => 0

/-- Rank of a possibly-missing tracker entry: an untracked digit counts the
same as `not-in-puzzle`. -/
def optRank : Option FeedbackColor → Nat
  | none => 0
  | some l => rank l

/-- The spec's upgrade rule: replace the stored label only when the new
label is strictly better. -/
def specUpgrade (cur newLabel : FeedbackColor) : FeedbackColor :=
  if rank cur < rank newLabel then newLabel else cur

/-- Rendering the spec's tracker for a single digit `d`: start at
`not-in-puzzle`, then fold every (value, label) pair of every guess in
chronological order, upgrading only when strictly better. -/
def specDigitStatus (guesses : List Guess) (d : ℚ) : FeedbackColor :=
  guesses.foldl
    (fun acc guess =>
      ((guessValues guess).zip guess.feedback).foldl
        (fun cur p => if p.1 = d then specUpgrade cur p.2 else cur) acc)
    FeedbackColor.notInPuzzle

/-- The nine digit values the tracker initializes. -/
def digitKeys : List ℚ := [1, 2, 3, 4, 5, 6, 7, 8, 9]

/-- Some position of some guess in the history holds value 0 with feedback
label `correct`. -/
def hasZeroCorrect (guesses : List Guess) : Prop :=
  ∃ guess ∈ guesses,
    (0, FeedbackColor.correct) ∈ (guessValues guess).zip guess.feedback

instance (guesses : List Guess) : Decidable (hasZeroCorrect guesses) :=
  inferInstanceAs (Decidable (∃ guess ∈ guesses, _ ∈ _))

/-- The claim's reading of "integer digit in the valid range" for a JS
number modelled as a rational. -/
def isIntegerDigitInRange (q : ℚ) : Prop :=
  q.den = 1 ∧ 0 ≤ q ∧ q ≤ 9

instance (q : ℚ) : Decidable (isIntegerDigitInRange q) :=
  inferInstanceAs (Decidable (_ ∧ _ ∧ _))

/-- A guess component triple is arithmetically consistent: the declared
result equals matrix times vector. -/
def arithmeticallyConsistent (guess : Guess) : Prop :=
  guess.result.g = guess.matrix.a * guess.vector.e + guess.matrix.b * guess.vector.f ∧
  guess.result.h = guess.matrix.c * guess.vector.e + guess.matrix.d * guess.vector.f

instance (guess : Guess) : Decidable (arithmeticallyConsistent guess) :=
  inferInstanceAs (Decidable (_ ∧ _))

/-- Abstraction function bridging the two pass-2 states: the source carries
the secret values paired with used-flags, the spec carries a consumed-index
set; `abstr consumed ss j` is the flagged list for the secret suffix `ss`
whose first element sits at absolute position `j`. -/
def abstr (consumed : List Nat) : List ℚ → Nat → List (ℚ × Bool)
  | [], _ => []
  | t :: ts, j => (t, decide (j ∈ consumed)) :: abstr consumed ts (j + 1)

/-- The pass-1 feedback entries for the guess suffix starting at absolute
position `i`: `some correct` where the guess value equals the secret value
at the same position, `none` (an unset array slot) elsewhere. -/
def exactMarks (secret : List ℚ) : List ℚ → Nat → List (Option FeedbackColor)
  | [], _ => []
  | g :: gs, i =>
      (if secret.get? i = some g then some FeedbackColor.correct else none) ::
        exactMarks secret gs (i + 1)

/-- The sixteen per-field defect messages of `validateMatrixInputs`. -/
def fieldDefectMessages : List String :=
  ["Matrix position a is required", "Matrix position a must be a digit 0-9",
   "Matrix position b is required", "Matrix position b must be a digit 0-9",
   "Matrix position c is required", "Matrix position c must be a digit 0-9",
   "Matrix position d is required", "Matrix position d must be a digit 0-9",
   "Vector position e is required", "Vector position e must be a digit 0-9",
   "Vector position f is required", "Vector position f must be a digit 0-9",
   "Result position g is required", "Result position g must be a digit 0-9",
   "Result position h is required", "Result position h must be a digit 0-9"]

/-! ## Helper lemmas for the classifier equivalence -/

theorem abstr_congr : ∀ (ts : List ℚ) (c c' : List Nat) (i : Nat),
    (∀ m, i ≤ m → (m ∈ c ↔ m ∈ c')) → abstr c ts i = abstr c' ts i
  | [], _, _, _, _ => rfl
  | t :: ts, c, c', i, h => by
      have h0 : (i ∈ c) = (i ∈ c') := propext (h i (Nat.le_refl i))
      have tail := abstr_congr ts c c' (i + 1) (fun m hm => h m (Nat.le_of_succ_le hm))
      simp only [abstr, h0, tail]

theorem findUnused_abstr : ∀ (ts : List ℚ) (c : List Nat) (v : ℚ) (j : Nat),
    (findUnused v (abstr c ts j)).map (· + j) = firstMatchFrom c v ts j
  | [], _, _, _ => rfl
  | t :: ts, c, v, j => by
      simp only [abstr, findUnused, firstMatchFrom]
      by_cases h : t = v ∧ j ∉ c
      · have hb : t = v ∧ (decide (j ∈ c) : Bool) = false := ⟨h.1, by simpa using h.2⟩
        rw [if_pos hb, if_pos h]
        simp
      · have hb : ¬(t = v ∧ (decide (j ∈ c) : Bool) = false) := by
          intro hc
          exact h ⟨hc.1, by simpa using hc.2⟩
        rw [if_neg hb, if_neg h]
        have tail := findUnused_abstr ts c v (j + 1)
        rw [← tail]
        cases findUnused v (abstr c ts (j + 1)) with
        | none => simp
        | some x =>
            simp only [Option.map_some']
            congr 1
            omega

theorem consume_abstr : ∀ (ts : List ℚ) (c : List Nat) (i j : Nat),
    consume (abstr c ts i) j = abstr ((i + j) :: c) ts i
  | [], _, _, _ => rfl
  | t :: ts, c, i, 0 => by
      have tail : abstr c ts (i + 1) = abstr (i :: c) ts (i + 1) :=
        abstr_congr ts c (i :: c) (i + 1) (fun m hm => by
          simp only [List.mem_cons]
          constructor
          · exact Or.inr
          · rintro (rfl | hmc)
            · omega
            · exact hmc)
      simp only [consume, abstr, Nat.add_zero, tail]
      simp

  | t :: ts, c, i, Nat.succ j => by
      have tail := consume_abstr ts c (i + 1) j
      have hidx : i + 1 + j = i + (j + 1) := by omega
      have hmem : (i ∈ (i + (j + 1)) :: c) = (i ∈ c) := by
        apply propext
        simp only [List.mem_cons]
        constructor
        · rintro (h | h)
          · omega
          · exact h
        · exact Or.inr
      simp only [consume, abstr, tail, hidx, hmem]

theorem exactIndices_ge : ∀ (gs ss : List ℚ) (i m : Nat),
    m ∈ exactIndices gs ss i → i ≤ m
  | [], _, _, _, h => by simp [exactIndices] at h
  | _ :: _, [], _, _, h => by simp [exactIndices] at h
  | g :: gs, s :: ss, i, m, h => by
      by_cases hgs : g = s
      · simp only [exactIndices, if_pos hgs, List.mem_cons] at h
        rcases h with rfl | h
        · exact Nat.le_refl m
        · exact Nat.le_of_succ_le (exactIndices_ge gs ss (i + 1) m h)
      · simp only [exactIndices, if_neg hgs] at h
        exact Nat.le_of_succ_le (exactIndices_ge gs ss (i + 1) m h)

theorem pass2_length : ∀ (pairs : List (ℚ × Option FeedbackColor)) (tu : List (ℚ × Bool)),
    (pass2 pairs tu).length = pairs.length
  | [], _ => rfl
  | (g, f) :: rest, tu => by
      simp only [pass2]
      by_cases h : f = some FeedbackColor.correct
      · rw [if_pos h]
        simp [pass2_length rest tu]
      · rw [if_neg h]
        cases findUnused g tu with
        | some j => simp [pass2_length rest (consume tu j)]
        | none => simp [pass2_length rest tu]

theorem pass2_abstr : ∀ (ss gs : List ℚ) (i : Nat) (c : List Nat),
    pass2 (gs.zip (exactMarks ss gs i)) (abstr c ss 0) = classifyGo ss gs i c
  | _, [], _, _ => rfl
  | ss, g :: gs, i, c => by
      simp only [exactMarks, List.zip_cons_cons, pass2, classifyGo]
      by_cases h : ss.get? i = some g
      · rw [if_pos h, if_pos h, if_pos rfl]
        exact congrArg _ (pass2_abstr ss gs (i + 1) c)
      · rw [if_neg h, if_neg h,
          if_neg (show ¬((none : Option FeedbackColor) = some FeedbackColor.correct) from
            fun hc => Option.noConfusion hc)]
        have hfind := findUnused_abstr ss c g 0
        cases hf : findUnused g (abstr c ss 0) with
        | none =>
            rw [hf] at hfind
            simp only [Option.map_none'] at hfind
            simp only [lowestUnconsumed, ← hfind]
            show FeedbackColor.notInPuzzle :: pass2 (gs.zip (exactMarks ss gs (i + 1))) (abstr c ss 0)
              = FeedbackColor.notInPuzzle :: classifyGo ss gs (i + 1) c
            exact congrArg _ (pass2_abstr ss gs (i + 1) c)
        | some j =>
            rw [hf] at hfind
            simp only [Option.map_some', Nat.add_zero] at hfind
            simp only [lowestUnconsumed, ← hfind]
            show FeedbackColor.wrongPosition ::
                pass2 (gs.zip (exactMarks ss gs (i + 1))) (consume (abstr c ss 0) j)
              = FeedbackColor.wrongPosition :: classifyGo ss gs (i + 1) (j :: c)
            have hcons : consume (abstr c ss 0) j = abstr (j :: c) ss 0 := by
              have := consume_abstr ss c 0 j
              simpa using this
            rw [hcons]
            exact congrArg _ (pass2_abstr ss gs (i + 1) (j :: c))

theorem drop_get_cons : ∀ (ss : List ℚ) (i : Nat) (t : ℚ),
    ss.get? i = some t → ss.drop i = t :: ss.drop (i + 1)
  | [], i, t, h => by simp [List.get?] at h
  | s :: ss, 0, t, h => by
      simp only [List.get?] at h
      cases h
      rfl
  | s :: ss, Nat.succ i, t, h => by
      simp only [List.get?] at h
      simpa [List.drop] using drop_get_cons ss i t h

theorem zipWith_exactMarks : ∀ (gs ss : List ℚ) (i : Nat), gs.length + i ≤ ss.length →
    List.zipWith
      (fun g t => if g = t then some FeedbackColor.correct else (none : Option FeedbackColor))
      gs (ss.drop i) = exactMarks ss gs i
  | [], _, _, _ => by simp [exactMarks]
  | g :: gs, ss, i, h => by
      have hi : i < ss.length := by
        simp only [List.length_cons] at h
        omega
      have ht : ss.get? i = some (ss.get ⟨i, hi⟩) := List.get?_eq_get hi
      rw [drop_get_cons ss i _ ht]
      simp only [List.zipWith_cons_cons, exactMarks]
      have tail := zipWith_exactMarks gs ss (i + 1) (by
        simp only [List.length_cons] at h
        omega)
      rw [tail]
      by_cases hgt : g = ss.get ⟨i, hi⟩
      · rw [if_pos hgt, if_pos (by rw [ht, hgt])]
      · rw [if_neg hgt, if_neg (by
          intro hc
          rw [ht] at hc
          exact hgt (Option.some.inj hc).symm)]

theorem zipWith_abstr : ∀ (gs ss : List ℚ) (i : Nat), gs.length = ss.length →
    List.zipWith (fun g t => (t, decide (g = t))) gs ss
      = abstr (exactIndices gs ss i) ss i
  | [], [], _, _ => rfl
  | [], s :: ss, i, h => by simp at h
  | g :: gs, [], i, h => by simp at h
  | g :: gs, s :: ss, i, h => by
      have hlen : gs.length = ss.length := by simpa using h
      by_cases hgs : g = s
      · simp only [exactIndices, if_pos hgs, List.zipWith_cons_cons, abstr]
        have tail : abstr (exactIndices gs ss (i + 1)) ss (i + 1)
            = abstr (i :: exactIndices gs ss (i + 1)) ss (i + 1) :=
          abstr_congr ss _ _ (i + 1) (fun m hm => by
            simp only [List.mem_cons]
            constructor
            · exact Or.inr
            · rintro (rfl | hmc)
              · omega
              · exact hmc)
        rw [← tail, zipWith_abstr gs ss (i + 1) hlen]
        simp [hgs]
      · simp only [exactIndices, if_neg hgs, List.zipWith_cons_cons, abstr]
        have hni : i ∉ exactIndices gs ss (i + 1) := fun hc => by
          have := exactIndices_ge gs ss (i + 1) i hc
          omega
        rw [zipWith_abstr gs ss (i + 1) hlen]
        simp [hgs, hni]

/-- C1: for every guess value sequence and every secret value sequence of
eight digits in canonical order, `generateFeedback` returns the
eight-element label sequence computed by the spec's two ordered passes:
position `i` is `correct` exactly when `guess[i] = secret[i]` with that
secret position consumed; every remaining position, in increasing index
order, is `wrong-position` exactly when some not-yet-consumed secret
position holds its value (the lowest-index one being consumed), and
`not-in-puzzle` otherwise, with all pass-1 consumption visible before
pass 2 begins. -/
theorem C1_generateFeedback_two_pass (guess : Guess) (target : Puzzle) :
    generateFeedback guess target
      = classifySpec (guessValues guess) (puzzleValues target) ∧
    (generateFeedback guess target).length = 8 := by
  have hlen : (guessValues guess).length = (puzzleValues target).length := rfl
  have hfb : List.zipWith
      (fun g t => if g = t then some FeedbackColor.correct else (none : Option FeedbackColor))
      (guessValues guess) (puzzleValues target)
      = exactMarks (puzzleValues target) (guessValues guess) 0 := by
    have h := zipWith_exactMarks (guessValues guess) (puzzleValues target) 0
      (by simp [guessValues, puzzleValues])
    simpa using h
  have htu := zipWith_abstr (guessValues guess) (puzzleValues target) 0 hlen
  have hmain : generateFeedback guess target
      = classifySpec (guessValues guess) (puzzleValues target) := by
    simp only [generateFeedback, classifySpec]
    rw [hfb, htu]
    exact pass2_abstr (puzzleValues target) (guessValues guess) 0
      (exactIndices (guessValues guess) (puzzleValues target) 0)
  refine ⟨hmain, ?_⟩
  simp only [generateFeedback]
  rw [pass2_length]
  simp [guessValues, puzzleValues]

/-! ## Helper lemmas for multiset conservation -/

theorem findUnused_consume_count :
    ∀ (tu : List (ℚ × Bool)) (j : Nat) (g v : ℚ),
    findUnused g tu = some j →
    tu.countP (fun p => p.1 == v && !p.2)
      = (consume tu j).countP (fun p => p.1 == v && !p.2)
        + (if g == v then 1 else 0)
  | [], j, g, v, h => by simp [findUnused] at h
  | (t, u) :: rest, j, g, v, h => by
      by_cases htu : t = g ∧ u = false
      · rw [findUnused, if_pos htu] at h
        cases h
        obtain ⟨rfl, rfl⟩ := htu
        simp only [consume, List.countP_cons]
        by_cases hv : t = v <;> simp [hv]
      · rw [findUnused, if_neg htu] at h
        cases hrec : findUnused g rest with
        | none => rw [hrec] at h; simp at h
        | some j' =>
            rw [hrec] at h
            simp only [Option.map_some'] at h
            cases h
            simp only [consume, List.countP_cons]
            rw [findUnused_consume_count rest j' g v hrec]
            omega

theorem pass2_cw_le :
    ∀ (v : ℚ) (pairs : List (ℚ × Option FeedbackColor)) (tu : List (ℚ × Bool)),
    ((pairs.map Prod.fst).zip (pass2 pairs tu)).countP
        (fun p => p.1 == v &&
          (p.2 == FeedbackColor.correct || p.2 == FeedbackColor.wrongPosition))
      ≤ pairs.countP (fun p => p.1 == v && p.2 == some FeedbackColor.correct)
        + tu.countP (fun p => p.1 == v && !p.2)
  | v, [], tu => by simp
  | v, (g, f) :: rest, tu => by
      simp only [pass2, List.map_cons]
      by_cases hf : f = some FeedbackColor.correct
      · rw [if_pos hf]
        simp only [List.zip_cons_cons, List.countP_cons]
        have ih := pass2_cw_le v rest tu
        subst hf
        by_cases hv : g = v <;> simp [hv] <;> omega
      · rw [if_neg hf]
        cases hfind : findUnused g tu with
        | some j =>
            simp only [List.zip_cons_cons, List.countP_cons]
            have ih := pass2_cw_le v rest (consume tu j)
            have hcnt := findUnused_consume_count tu j g v hfind
            have hcorr : ((g, f).1 == v && (g, f).2 == some FeedbackColor.correct) = false := by
              simp only [beq_iff_eq]
              by_cases hv : g = v <;> simp [hv, hf]
            rw [hcnt]
            by_cases hv : g = v <;> simp [hcorr, hv] <;> omega
        | none =>
            simp only [List.zip_cons_cons, List.countP_cons]
            have ih := pass2_cw_le v rest tu
            by_cases hv : g = v <;> simp [hv, hf] <;> omega

theorem init_counts_le : ∀ (v : ℚ) (gs ss : List ℚ),
    (gs.zip (List.zipWith
        (fun g t => if g = t then some FeedbackColor.correct else (none : Option FeedbackColor))
        gs ss)).countP
      (fun p => p.1 == v && p.2 == some FeedbackColor.correct)
    + (List.zipWith (fun g t => (t, decide (g = t))) gs ss).countP
        (fun p => p.1 == v && !p.2)
    ≤ ss.count v
  | v, [], ss => by simp
  | v, g :: gs, [] => by simp
  | v, g :: gs, s :: ss => by
      have ih := init_counts_le v gs ss
      by_cases h1 : g = s <;> by_cases h2 : s = v <;> by_cases h3 : g = v <;>
        simp_all [List.zipWith_cons_cons, List.zip_cons_cons, List.countP_cons,
          List.count_cons] <;>
        omega

/-- C2: for every guess, secret and digit value `v`, the number of guess
positions holding `v` that are labeled `correct` or `wrong-position` by
`generateFeedback` is at most the number of occurrences of `v` among the
secret's eight values. -/
theorem C2_multiset_conservation (guess : Guess) (target : Puzzle) (v : ℚ) :
    ((guessValues guess).zip (generateFeedback guess target)).countP
        (fun p => p.1 == v &&
          (p.2 == FeedbackColor.correct || p.2 == FeedbackColor.wrongPosition))
      ≤ (puzzleValues target).count v := by
  have hpairs : (((guessValues guess).zip (List.zipWith
        (fun g t => if g = t then some FeedbackColor.correct else (none : Option FeedbackColor))
        (guessValues guess) (puzzleValues target))).map Prod.fst) = guessValues guess :=
    List.map_fst_zip _ _ (by simp [guessValues, puzzleValues])
  simp only [generateFeedback]
  calc ((guessValues guess).zip (pass2
          ((guessValues guess).zip (List.zipWith
            (fun g t => if g = t then some FeedbackColor.correct else (none : Option FeedbackColor))
            (guessValues guess) (puzzleValues target)))
          (List.zipWith (fun g t => (t, decide (g = t)))
            (guessValues guess) (puzzleValues target)))).countP
        (fun p => p.1 == v &&
          (p.2 == FeedbackColor.correct || p.2 == FeedbackColor.wrongPosition))
      = ((((guessValues guess).zip (List.zipWith
            (fun g t => if g = t then some FeedbackColor.correct else (none : Option FeedbackColor))
            (guessValues guess) (puzzleValues target))).map Prod.fst).zip (pass2
          ((guessValues guess).zip (List.zipWith
            (fun g t => if g = t then some FeedbackColor.correct else (none : Option FeedbackColor))
            (guessValues guess) (puzzleValues target)))
          (List.zipWith (fun g t => (t, decide (g = t)))
            (guessValues guess) (puzzleValues target)))).countP
        (fun p => p.1 == v &&
          (p.2 == FeedbackColor.correct || p.2 == FeedbackColor.wrongPosition)) := by
        rw [hpairs]
    _ ≤ _ := le_trans (pass2_cw_le v _ _)
        (init_counts_le v (guessValues guess) (puzzleValues target))

/-! ## Helper lemmas for the win detector -/

theorem pass2_self : ∀ (gs : List ℚ) (tu : List (ℚ × Bool)),
    pass2 (gs.zip (List.zipWith
        (fun g t => if g = t then some FeedbackColor.correct else (none : Option FeedbackColor))
        gs gs)) tu
      = List.replicate gs.length FeedbackColor.correct
  | [], _ => rfl
  | g :: gs, tu => by
      simp only [List.zipWith_cons_cons, List.zip_cons_cons, pass2, if_pos rfl,
        List.length_cons, List.replicate_succ]
      exact congrArg _ (pass2_self gs tu)

theorem pass2_all_correct_eq : ∀ (gs ss : List ℚ) (tu : List (ℚ × Bool)),
    gs.length = ss.length →
    pass2 (gs.zip (List.zipWith
        (fun g t => if g = t then some FeedbackColor.correct else (none : Option FeedbackColor))
        gs ss)) tu
      = List.replicate gs.length FeedbackColor.correct →
    gs = ss
  | [], [], _, _, _ => rfl
  | [], s :: ss, _, hlen, _ => by simp at hlen
  | g :: gs, [], _, hlen, _ => by simp at hlen
  | g :: gs, s :: ss, tu, hlen, h => by
      simp only [List.zipWith_cons_cons, List.zip_cons_cons, pass2] at h
      by_cases hgs : g = s
      · subst hgs
        simp only [eq_self_iff_true, if_true, List.length_cons, List.replicate_succ,
          List.cons.injEq, true_and] at h
        have := pass2_all_correct_eq gs ss tu (by simpa using hlen) h
        rw [this]
      · have hnone : ¬((none : Option FeedbackColor) = some FeedbackColor.correct) :=
          fun hc => Option.noConfusion hc
        simp only [if_neg hgs, if_neg hnone] at h
        cases hfind : findUnused g tu <;> rw [hfind] at h <;>
          simp [List.length_cons, List.replicate_succ] at h

/-- C3: `isWinningGuess` returns `true` iff all eight corresponding values
are pairwise equal, which holds iff `generateFeedback` labels all eight
positions `correct`. -/
theorem C3_win_iff_all_exact (guess : Guess) (target : Puzzle) :
    (isWinningGuess guess target = true ↔
      (guess.matrix.a = target.matrix.a ∧ guess.matrix.b = target.matrix.b ∧
       guess.matrix.c = target.matrix.c ∧ guess.matrix.d = target.matrix.d ∧
       guess.vector.e = target.vector.e ∧ guess.vector.f = target.vector.f ∧
       guess.result.g = target.result.g ∧ guess.result.h = target.result.h)) ∧
    ((guess.matrix.a = target.matrix.a ∧ guess.matrix.b = target.matrix.b ∧
      guess.matrix.c = target.matrix.c ∧ guess.matrix.d = target.matrix.d ∧
      guess.vector.e = target.vector.e ∧ guess.vector.f = target.vector.f ∧
      guess.result.g = target.result.g ∧ guess.result.h = target.result.h) ↔
      generateFeedback guess target = List.replicate 8 FeedbackColor.correct) := by
  constructor
  · simp [isWinningGuess, and_assoc]
  · constructor
    · rintro ⟨h1, h2, h3, h4, h5, h6, h7, h8⟩
      have hv : guessValues guess = puzzleValues target := by
        simp [guessValues, puzzleValues, h1, h2, h3, h4, h5, h6, h7, h8]
      simp only [generateFeedback, ← hv]
      exact pass2_self (guessValues guess) _
    · intro h
      have hv : guessValues guess = puzzleValues target := by
        apply pass2_all_correct_eq (guessValues guess) (puzzleValues target) _ rfl
        simpa only [generateFeedback] using h
      simpa [guessValues, puzzleValues] using hv

/-! ## Helper lemmas for the digit record -/

theorem any_key_iff_mem (m : DigitRecord) (k : ℚ) :
    m.any (fun p => p.1 == k) = true ↔ k ∈ recordKeys m := by
  simp [List.any_eq_true, recordKeys, List.mem_map, beq_iff_eq]

theorem recordGet_eq_none_iff : ∀ (m : DigitRecord) (k : ℚ),
    recordGet m k = none ↔ k ∉ recordKeys m
  | [], k => by simp [recordGet, recordKeys]
  | p :: m, k => by
      by_cases hp : p.1 = k
      · have hb : (p.1 == k) = true := by simp [hp]
        simp [recordGet, recordKeys, List.find?, hb, hp]
      · have hb : (p.1 == k) = false := by simp [hp]
        have hkp : ¬(k = p.1) := fun h => hp h.symm
        have ih := recordGet_eq_none_iff m k
        simp only [recordGet, recordKeys, List.map_cons, List.find?, hb,
          List.mem_cons] at ih ⊢
        rw [ih]
        simp [hkp]

theorem recordGet_map_upd : ∀ (m : DigitRecord) (k : ℚ) (v : FeedbackColor),
    recordGet (m.map (fun p => if p.1 == k then (k, v) else p)) k
      = if m.any (fun p => p.1 == k) then some v else none
  | [], _, _ => rfl
  | p :: m, k, v => by
      by_cases hp : p.1 = k
      · simp [recordGet, List.find?, hp]
      · have hb : (p.1 == k) = false := by simp [hp]
        simp only [List.map_cons, List.any_cons, hb, recordGet, List.find?,
          if_neg (by simp [hp] : ¬(p.1 == k) = true)]
        rw [if_neg (by simp [hp])]
        simp only [hb, Bool.false_or]
        exact recordGet_map_upd m k v

theorem recordGet_map_upd_ne : ∀ (m : DigitRecord) (k k' : ℚ) (v : FeedbackColor),
    k' ≠ k →
    recordGet (m.map (fun p => if p.1 == k then (k, v) else p)) k'
      = recordGet m k'
  | [], _, _, _, _ => rfl
  | p :: m, k, k', v, hne => by
      by_cases hp : p.1 = k
      · have h1 : ((k, v).1 == k') = false := by simp [Ne.symm hne]
        have h2 : (p.1 == k') = false := by simp [hp, Ne.symm hne]
        simp only [List.map_cons, if_pos (by simp [hp] : (p.1 == k) = true),
          recordGet, List.find?, h1, h2]
        exact recordGet_map_upd_ne m k k' v hne
      · simp only [List.map_cons, if_neg (by simp [hp] : ¬(p.1 == k) = true),
          recordGet, List.find?]
        cases hb : (p.1 == k') with
        | true => rfl
        | false => exact recordGet_map_upd_ne m k k' v hne

theorem recordGet_append_none : ∀ (m₁ m₂ : DigitRecord) (k : ℚ),
    recordGet m₁ k = none → recordGet (m₁ ++ m₂) k = recordGet m₂ k
  | [], m₂, k, _ => rfl
  | p :: m₁, m₂, k, h => by
      simp only [recordGet, List.find?] at h ⊢
      cases hb : (p.1 == k) with
      | true => rw [hb] at h; simp at h
      | false =>
          rw [hb] at h
          simp only [List.cons_append]
          exact recordGet_append_none m₁ m₂ k h

theorem recordGet_append_some : ∀ (m₁ m₂ : DigitRecord) (k : ℚ) (v : FeedbackColor),
    recordGet m₁ k = some v → recordGet (m₁ ++ m₂) k = some v
  | [], m₂, k, v, h => by simp [recordGet] at h
  | p :: m₁, m₂, k, v, h => by
      simp only [recordGet, List.find?] at h ⊢
      cases hb : (p.1 == k) with
      | true => rw [hb] at h; simpa using h
      | false =>
          rw [hb] at h
          simp only [List.cons_append]
          exact recordGet_append_some m₁ m₂ k v h

theorem recordGet_recordSet_self (m : DigitRecord) (k : ℚ) (v : FeedbackColor) :
    recordGet (recordSet m k v) k = some v := by
  simp only [recordSet]
  by_cases hany : m.any (fun p => p.1 == k) = true
  · rw [if_pos hany, recordGet_map_upd, if_pos hany]
  · rw [if_neg hany]
    have hnone : recordGet m k = none := by
      rcases hm : recordGet m k with _ | v'
      · rfl
      · exfalso
        apply hany
        rw [any_key_iff_mem]
        by_contra hk
        rw [← recordGet_eq_none_iff] at hk
        rw [hm] at hk
        cases hk
    rw [recordGet_append_none m _ k hnone]
    simp [recordGet, List.find?]

theorem recordGet_recordSet_ne (m : DigitRecord) (k k' : ℚ) (v : FeedbackColor)
    (hne : k' ≠ k) : recordGet (recordSet m k v) k' = recordGet m k' := by
  simp only [recordSet]
  by_cases hany : m.any (fun p => p.1 == k) = true
  · rw [if_pos hany]
    exact recordGet_map_upd_ne m k k' v hne
  · rw [if_neg hany]
    rcases hm : recordGet m k' with _ | v'
    · rw [recordGet_append_none m _ k' hm]
      have hb : (k == k') = false := by simp [Ne.symm hne]
      simp [recordGet, List.find?, hb]
    · exact recordGet_append_some m _ k' v' hm

theorem recordKeys_recordSet (m : DigitRecord) (k : ℚ) (v : FeedbackColor) :
    recordKeys (recordSet m k v)
      = if k ∈ recordKeys m then recordKeys m else recordKeys m ++ [k] := by
  simp only [recordSet]
  by_cases hany : m.any (fun p => p.1 == k) = true
  · rw [if_pos hany, if_pos ((any_key_iff_mem m k).mp hany)]
    simp only [recordKeys, List.map_map]
    apply List.map_congr_left
    intro p _
    by_cases hp : p.1 = k
    · simp [hp]
    · simp [hp]
  · rw [if_neg hany, if_neg (fun hmem => hany ((any_key_iff_mem m k).mpr hmem))]
    simp [recordKeys]

/-! ## Helper lemmas for the digit tracker -/

theorem digitUpdate_none (m : DigitRecord) (d : ℚ) : digitUpdate m d none = m := rfl

theorem digitUpdate_get_ne (m : DigitRecord) (d k : ℚ) (s : Option FeedbackColor)
    (hne : k ≠ d) : recordGet (digitUpdate m d s) k = recordGet m k := by
  cases s with
  | none => rfl
  | some l =>
      simp only [digitUpdate]
      split
      · exact recordGet_recordSet_ne m d k l hne
      · rfl

theorem digitUpdate_get_tracked (m : DigitRecord) (d : ℚ) (l cur : FeedbackColor)
    (hcur : recordGet m d = some cur) :
    recordGet (digitUpdate m d (some l)) d = some (specUpgrade cur l) := by
  simp only [digitUpdate]
  by_cases hcond : l = FeedbackColor.correct ∨
      (l = FeedbackColor.wrongPosition ∧ recordGet m d = some FeedbackColor.notInPuzzle)
  · rw [if_pos hcond, recordGet_recordSet_self]
    rcases hcond with rfl | ⟨rfl, hni⟩
    · cases cur <;> rfl
    · rw [hcur] at hni
      have hc : cur = FeedbackColor.notInPuzzle := Option.some.inj hni
      subst hc
      rfl
  · rw [if_neg hcond, hcur]
    push_neg at hcond
    obtain ⟨hnc, hnw⟩ := hcond
    cases l with
    | correct => exact absurd rfl hnc
    | wrongPosition =>
        have hni := hnw rfl
        rw [hcur] at hni
        cases cur <;> simp_all [specUpgrade, rank]
    | notInPuzzle => cases cur <;> rfl

theorem digitUpdate_get_untracked (m : DigitRecord) (d : ℚ) (l : FeedbackColor)
    (hcur : recordGet m d = none) :
    recordGet (digitUpdate m d (some l)) d
      = if l = FeedbackColor.correct then some FeedbackColor.correct else none := by
  simp only [digitUpdate]
  by_cases hl : l = FeedbackColor.correct
  · subst hl
    rw [if_pos (Or.inl rfl), recordGet_recordSet_self, if_pos rfl]
  · rw [if_neg, if_neg hl]
    · exact hcur
    · rintro (rfl | ⟨rfl, hni⟩)
      · exact hl rfl
      · rw [hcur] at hni
        cases hni

theorem processValues_spec : ∀ (vs : List ℚ) (fb : List FeedbackColor)
    (m : DigitRecord) (d : ℚ) (cur : FeedbackColor),
    recordGet m d = some cur →
    recordGet (processValues m vs fb) d
      = some ((vs.zip fb).foldl
          (fun c p => if p.1 = d then specUpgrade c p.2 else c) cur)
  | [], fb, m, d, cur, hcur => by simpa [processValues] using hcur
  | v :: vs, [], m, d, cur, hcur => by
      simp only [processValues, digitUpdate_none, List.zip_nil_right, List.foldl_nil]
      have h := processValues_spec vs [] m d cur hcur
      simpa using h
  | v :: vs, l :: ls, m, d, cur, hcur => by
      simp only [processValues, List.zip_cons_cons, List.foldl_cons]
      by_cases hvd : v = d
      · subst hvd
        have hstep := digitUpdate_get_tracked m v l cur hcur
        have h := processValues_spec vs ls (digitUpdate m v (some l)) v
          (specUpgrade cur l) hstep
        simpa using h
      · have hstep : recordGet (digitUpdate m v (some l)) d = some cur := by
          rw [digitUpdate_get_ne m v d (some l) (fun h => hvd h.symm)]
          exact hcur
        have h := processValues_spec vs ls (digitUpdate m v (some l)) d cur hstep
        simpa [hvd] using h

theorem trackerFold_spec : ∀ (guesses : List Guess) (m : DigitRecord) (d : ℚ)
    (cur : FeedbackColor),
    recordGet m d = some cur →
    recordGet (guesses.foldl processGuess m) d
      = some (guesses.foldl
          (fun acc guess => ((guessValues guess).zip guess.feedback).foldl
            (fun c p => if p.1 = d then specUpgrade c p.2 else c) acc) cur)
  | [], m, d, cur, hcur => by simpa using hcur
  | guess :: rest, m, d, cur, hcur => by
      simp only [List.foldl_cons]
      exact trackerFold_spec rest (processGuess m guess) d _
        (processValues_spec (guessValues guess) guess.feedback m d cur hcur)

theorem initDigitStatus_get (d : ℚ) (hd : d ∈ digitKeys) :
    recordGet initDigitStatus d = some FeedbackColor.notInPuzzle := by
  fin_cases hd <;> rfl

theorem digitUpdate_rank_mono (m : DigitRecord) (d : ℚ) (s : Option FeedbackColor)
    (k : ℚ) :
    optRank (recordGet m k) ≤ optRank (recordGet (digitUpdate m d s) k) := by
  cases s with
  | none => exact Nat.le_refl _
  | some l =>
      by_cases hkd : k = d
      · subst hkd
        rcases hm : recordGet m k with _ | cur
        · rw [digitUpdate_get_untracked m k l hm]
          by_cases hl : l = FeedbackColor.correct
          · simp [hl, optRank]
          · simp [hl, optRank]
        · rw [digitUpdate_get_tracked m k l cur hm]
          simp only [optRank]
          rcases Nat.lt_or_ge (rank cur) (rank l) with h | h
          · rw [specUpgrade, if_pos h]
            exact Nat.le_of_lt h
          · rw [specUpgrade, if_neg (Nat.not_lt.mpr h)]
      · rw [digitUpdate_get_ne m d k (some l) hkd]

theorem processValues_rank_mono : ∀ (vs : List ℚ) (fb : List FeedbackColor)
    (m : DigitRecord) (k : ℚ),
    optRank (recordGet m k) ≤ optRank (recordGet (processValues m vs fb) k)
  | [], _, _, _ => Nat.le_refl _
  | v :: vs, [], m, k =>
      Nat.le_trans (digitUpdate_rank_mono m v none k)
        (processValues_rank_mono vs [] (digitUpdate m v none) k)
  | v :: vs, l :: ls, m, k =>
      Nat.le_trans (digitUpdate_rank_mono m v (some l) k)
        (processValues_rank_mono vs ls (digitUpdate m v (some l)) k)

theorem trackerFold_rank_mono : ∀ (guesses : List Guess) (m : DigitRecord) (k : ℚ),
    optRank (recordGet m k) ≤ optRank (recordGet (guesses.foldl processGuess m) k)
  | [], _, _ => Nat.le_refl _
  | guess :: rest, m, k =>
      Nat.le_trans (processValues_rank_mono (guessValues guess) guess.feedback m k)
        (trackerFold_rank_mono rest (processGuess m guess) k)

/-- C6: `calculateDigitTracker` agrees, on every digit 1-9, with the map
obtained by initializing every digit to `not-in-puzzle` and folding every
(value, label) pair of every guess in chronological order, upgrading only
when the new label is strictly better under
`correct > wrong-position > not-in-puzzle`; consequently extending the
history never regresses any digit's status. -/
theorem C6_tracker_spec_and_monotone (guesses ext : List Guess) :
    (∀ d ∈ digitKeys, recordGet (calculateDigitTracker guesses) d
        = some (specDigitStatus guesses d)) ∧
    (∀ k : ℚ, optRank (recordGet (calculateDigitTracker guesses) k)
        ≤ optRank (recordGet (calculateDigitTracker (guesses ++ ext)) k)) := by
  constructor
  · intro d hd
    exact trackerFold_spec guesses initDigitStatus d FeedbackColor.notInPuzzle
      (initDigitStatus_get d hd)
  · intro k
    rw [calculateDigitTracker, calculateDigitTracker, List.foldl_append]
    exact trackerFold_rank_mono ext (guesses.foldl processGuess initDigitStatus) k

/-- Witness for C6 at a concrete history and extension. -/
theorem C6_witness :
    recordGet (calculateDigitTracker []) 5 = some (specDigitStatus [] 5) ∧
    optRank (recordGet (calculateDigitTracker []) 5)
      ≤ optRank (recordGet (calculateDigitTracker
          ([] ++ [⟨⟨5, 1, 2, 3⟩, ⟨4, 4⟩, ⟨6, 7⟩,
            [FeedbackColor.correct, FeedbackColor.wrongPosition,
             FeedbackColor.notInPuzzle, FeedbackColor.notInPuzzle,
             FeedbackColor.correct, FeedbackColor.notInPuzzle,
             FeedbackColor.correct, FeedbackColor.correct], 0⟩])) 5) :=
  ⟨(C6_tracker_spec_and_monotone []
      [⟨⟨5, 1, 2, 3⟩, ⟨4, 4⟩, ⟨6, 7⟩,
        [FeedbackColor.correct, FeedbackColor.wrongPosition,
         FeedbackColor.notInPuzzle, FeedbackColor.notInPuzzle,
         FeedbackColor.correct, FeedbackColor.notInPuzzle,
         FeedbackColor.correct, FeedbackColor.correct], 0⟩]).1 5 (by decide),
   (C6_tracker_spec_and_monotone []
      [⟨⟨5, 1, 2, 3⟩, ⟨4, 4⟩, ⟨6, 7⟩,
        [FeedbackColor.correct, FeedbackColor.wrongPosition,
         FeedbackColor.notInPuzzle, FeedbackColor.notInPuzzle,
         FeedbackColor.correct, FeedbackColor.notInPuzzle,
         FeedbackColor.correct, FeedbackColor.correct], 0⟩]).2 5⟩

/-! ## Helper lemmas for the tracker key set -/

theorem keys_digitUpdate_present (m : DigitRecord) (d : ℚ) (s : Option FeedbackColor)
    (hd : d ∈ recordKeys m) :
    recordKeys (digitUpdate m d s) = recordKeys m := by
  cases s with
  | none => rfl
  | some l =>
      simp only [digitUpdate]
      split
      · rw [recordKeys_recordSet, if_pos hd]
      · rfl

theorem keys_digitUpdate_absent_correct (m : DigitRecord) (d : ℚ)
    (hd : d ∉ recordKeys m) :
    recordKeys (digitUpdate m d (some FeedbackColor.correct))
      = recordKeys m ++ [d] := by
  simp only [digitUpdate]
  rw [if_pos (Or.inl (by trivial)), recordKeys_recordSet, if_neg hd]

theorem digitUpdate_absent_not_correct (m : DigitRecord) (d : ℚ) (l : FeedbackColor)
    (hd : d ∉ recordKeys m) (hl : l ≠ FeedbackColor.correct) :
    digitUpdate m d (some l) = m := by
  simp only [digitUpdate]
  rw [if_neg]
  rintro (rfl | ⟨rfl, hni⟩)
  · exact hl rfl
  · rw [(recordGet_eq_none_iff m d).mpr hd] at hni
    cases hni

theorem keys_digitUpdate_mono (m : DigitRecord) (d : ℚ) (s : Option FeedbackColor)
    (k : ℚ) (hk : k ∈ recordKeys m) : k ∈ recordKeys (digitUpdate m d s) := by
  by_cases hd : d ∈ recordKeys m
  · rw [keys_digitUpdate_present m d s hd]
    exact hk
  · cases s with
    | none => exact hk
    | some l =>
        by_cases hl : l = FeedbackColor.correct
        · subst hl
          rw [keys_digitUpdate_absent_correct m d hd]
          simp [hk]
        · rw [digitUpdate_absent_not_correct m d l hd hl]
          exact hk

theorem isValidDigit_cases (v : ℚ) (h : isValidDigit v = true) :
    v = 0 ∨ v ∈ digitKeys := by
  simp only [isValidDigit, Bool.and_eq_true, beq_iff_eq, decide_eq_true_eq] at h
  obtain ⟨⟨hden, hnn⟩, hle⟩ := h
  have hv : (v.num : ℚ) = v := by
    rw [Rat.den_eq_one_iff] at hden
    exact hden
  have h0 : 0 ≤ v.num := Rat.num_nonneg.mpr hnn
  have h9 : v.num ≤ 9 := by
    have hc : (v.num : ℚ) ≤ ((9 : ℤ) : ℚ) := by
      rw [hv]
      exact_mod_cast hle
    exact_mod_cast hc
  set n := v.num with hn
  interval_cases n <;> rw [← hv] <;> norm_num [digitKeys]

theorem processValues_keys : ∀ (vs : List ℚ) (fb : List FeedbackColor)
    (m : DigitRecord),
    (∀ v ∈ vs, isValidDigit v = true) →
    (∀ d ∈ digitKeys, d ∈ recordKeys m) →
    ∀ k, k ∈ recordKeys (processValues m vs fb) ↔
      k ∈ recordKeys m ∨ (k = 0 ∧ (0, FeedbackColor.correct) ∈ vs.zip fb)
  | [], fb, m, _, _, k => by simp [processValues]
  | v :: vs, [], m, hvalid, hsub, k => by
      simp only [processValues, digitUpdate_none, List.zip_nil_right,
        List.not_mem_nil, and_false, or_false]
      have h := processValues_keys vs [] m (fun w hw => hvalid w (by simp [hw])) hsub k
      simpa using h
  | v :: vs, l :: ls, m, hvalid, hsub, k => by
      simp only [processValues, List.zip_cons_cons, List.mem_cons]
      have hvv : isValidDigit v = true := hvalid v (by simp)
      have hsub' : ∀ d ∈ digitKeys, d ∈ recordKeys (digitUpdate m v (some l)) :=
        fun d hd => keys_digitUpdate_mono m v (some l) d (hsub d hd)
      have ih := processValues_keys vs ls (digitUpdate m v (some l))
        (fun w hw => hvalid w (by simp [hw])) hsub' k
      rw [ih]
      by_cases hvm : v ∈ recordKeys m
      · rw [keys_digitUpdate_present m v (some l) hvm]
        constructor
        · rintro (hk | ⟨rfl, hrest⟩)
          · exact Or.inl hk
          · exact Or.inr ⟨rfl, Or.inr hrest⟩
        · rintro (hk | ⟨rfl, (heq | hrest)⟩)
          · exact Or.inl hk
          · have hv0 : v = 0 := (Prod.mk.injEq _ _ _ _ ▸ heq).1.symm
            subst hv0
            exact Or.inl hvm
          · exact Or.inr ⟨rfl, hrest⟩
      · by_cases hl : l = FeedbackColor.correct
        · subst hl
          have hv0 : v = 0 := by
            rcases isValidDigit_cases v hvv with h0 | hmem
            · exact h0
            · exact absurd (hsub v hmem) hvm
          subst hv0
          rw [keys_digitUpdate_absent_correct m 0 hvm]
          simp only [List.mem_append, List.mem_singleton]
          constructor
          · rintro ((hk | rfl) | ⟨rfl, hrest⟩)
            · exact Or.inl hk
            · exact Or.inr ⟨rfl, Or.inl (by trivial)⟩
            · exact Or.inr ⟨rfl, Or.inr hrest⟩
          · rintro (hk | ⟨rfl, (heq | hrest)⟩)
            · exact Or.inl (Or.inl hk)
            · exact Or.inl (Or.inr (by trivial))
            · exact Or.inr ⟨rfl, hrest⟩
        · rw [digitUpdate_absent_not_correct m v l hvm hl]
          constructor
          · rintro (hk | ⟨rfl, hrest⟩)
            · exact Or.inl hk
            · exact Or.inr ⟨rfl, Or.inr hrest⟩
          · rintro (hk | ⟨rfl, (heq | hrest)⟩)
            · exact Or.inl hk
            · exact absurd ((Prod.mk.injEq _ _ _ _ ▸ heq).2.symm) hl
            · exact Or.inr ⟨rfl, hrest⟩

theorem hasZeroCorrect_cons (guess : Guess) (rest : List Guess) :
    hasZeroCorrect (guess :: rest) ↔
      ((0, FeedbackColor.correct) ∈ (guessValues guess).zip guess.feedback) ∨
        hasZeroCorrect rest := by
  simp [hasZeroCorrect]

theorem trackerFold_keys : ∀ (guesses : List Guess) (m : DigitRecord),
    (∀ guess ∈ guesses, ∀ v ∈ guessValues guess, isValidDigit v = true) →
    (∀ d ∈ digitKeys, d ∈ recordKeys m) →
    ∀ k, k ∈ recordKeys (guesses.foldl processGuess m) ↔
      k ∈ recordKeys m ∨ (k = 0 ∧ hasZeroCorrect guesses)
  | [], m, _, _, k => by simp [hasZeroCorrect]
  | guess :: rest, m, hvalid, hsub, k => by
      simp only [List.foldl_cons]
      have h1 := processValues_keys (guessValues guess) guess.feedback m
        (hvalid guess (by simp)) hsub
      have hsub' : ∀ d ∈ digitKeys, d ∈ recordKeys (processGuess m guess) :=
        fun d hd => (h1 d).mpr (Or.inl (hsub d hd))
      have h2 := trackerFold_keys rest (processGuess m guess)
        (fun g hg => hvalid g (by simp [hg])) hsub' k
      rw [h2, hasZeroCorrect_cons]
      have h1k : k ∈ recordKeys (processGuess m guess) ↔
          k ∈ recordKeys m ∨
            (k = 0 ∧ (0, FeedbackColor.correct) ∈ (guessValues guess).zip guess.feedback) :=
        h1 k
      rw [h1k]
      constructor
      · rintro ((hk | ⟨rfl, hg⟩) | ⟨rfl, hrest⟩)
        · exact Or.inl hk
        · exact Or.inr ⟨rfl, Or.inl hg⟩
        · exact Or.inr ⟨rfl, Or.inr hrest⟩
      · rintro (hk | ⟨rfl, (hg | hrest)⟩)
        · exact Or.inl (Or.inl hk)
        · exact Or.inl (Or.inr ⟨rfl, hg⟩)
        · exact Or.inr ⟨rfl, hrest⟩

theorem recordKeys_init : recordKeys initDigitStatus = digitKeys := rfl

/-- C10: for a history of validator-accepted guesses (all values digits
0-9), the key set of `calculateDigitTracker` is the digits 1-9, plus the
extra key 0 exactly when some position of some guess holds value 0 with
feedback label `correct`; a 0-valued position labeled `wrong-position` or
`not-in-puzzle` never adds a key. -/
theorem C10_tracker_keys (guesses : List Guess)
    (hvalid : ∀ guess ∈ guesses, ∀ v ∈ guessValues guess, isValidDigit v = true)
    (k : ℚ) :
    k ∈ recordKeys (calculateDigitTracker guesses) ↔
      k ∈ digitKeys ∨ (k = 0 ∧ hasZeroCorrect guesses) := by
  have h := trackerFold_keys guesses initDigitStatus hvalid
    (fun d hd => by rw [recordKeys_init]; exact hd) k
  rw [calculateDigitTracker, h, recordKeys_init]

/-- Witness for C10: a single accepted-shape guess holding a 0 labeled
`correct` adds the key 0; the same guess shape with the 0 labeled
`wrong-position` does not. -/
theorem C10_witness :
    ((0 : ℚ) ∈ recordKeys (calculateDigitTracker
        [⟨⟨0, 1, 2, 3⟩, ⟨4, 4⟩, ⟨6, 7⟩,
          [FeedbackColor.correct, FeedbackColor.wrongPosition,
           FeedbackColor.notInPuzzle, FeedbackColor.notInPuzzle,
           FeedbackColor.correct, FeedbackColor.notInPuzzle,
           FeedbackColor.correct, FeedbackColor.correct], 0⟩]) ↔
      (0 : ℚ) ∈ digitKeys ∨ ((0 : ℚ) = 0 ∧ hasZeroCorrect
        [⟨⟨0, 1, 2, 3⟩, ⟨4, 4⟩, ⟨6, 7⟩,
          [FeedbackColor.correct, FeedbackColor.wrongPosition,
           FeedbackColor.notInPuzzle, FeedbackColor.notInPuzzle,
           FeedbackColor.correct, FeedbackColor.notInPuzzle,
           FeedbackColor.correct, FeedbackColor.correct], 0⟩])) :=
  C10_tracker_keys _ (by decide) 0

/-- C9: the digit domain is inconsistent across the code: `isValidDigit`
returns `true` for the integer 0 and for every integer 1 through 9 (and
`false` for every other number), so a guess containing 0 can be accepted
by `validateCompleteGuess`, while the digit tracker's status map is
initialized over the digits 1-9 only (0 is not among its keys). -/
theorem C9_digit_domain_inconsistent :
    (isValidDigit 0 = true) ∧
    (∀ n : ℤ, 1 ≤ n → n ≤ 9 → isValidDigit ((n : ℤ) : ℚ) = true) ∧
    (∀ q : ℚ, ¬ isIntegerDigitInRange q → isValidDigit q = false) ∧
    ((validateCompleteGuess ⟨some 0, some 0, some 0, some 0⟩
        ⟨some 0, some 0⟩ ⟨some 0, some 0⟩).isValid = true) ∧
    (recordKeys (calculateDigitTracker []) = digitKeys ∧ (0 : ℚ) ∉ digitKeys) := by
  refine ⟨by decide, ?_, ?_, ?_, by decide, by decide⟩
  case refine_3 =>
    norm_num [validateCompleteGuess, validateMatrixInputs, checkField, isValidDigit,
      validateMatrixMultiplication, castMatrix, castVector, castResult]
  · intro n h1 h9
    have hden : ((n : ℚ)).den = 1 := Rat.den_intCast n
    simp only [isValidDigit, Bool.and_eq_true, beq_iff_eq, decide_eq_true_eq]
    refine ⟨⟨hden, ?_⟩, ?_⟩
    · exact_mod_cast le_trans (by norm_num : (0 : ℤ) ≤ 1) h1
    · exact_mod_cast h9
  · intro q hq
    cases hb : isValidDigit q with
    | false => rfl
    | true =>
        exfalso
        apply hq
        simp only [isValidDigit, Bool.and_eq_true, beq_iff_eq,
          decide_eq_true_eq] at hb
        exact ⟨hb.1.1, hb.1.2, hb.2⟩

/-! ## Helper lemmas for the validator -/

theorem isValidDigit_true_iff (q : ℚ) :
    isValidDigit q = true ↔ isIntegerDigitInRange q := by
  simp [isValidDigit, isIntegerDigitInRange, Bool.and_eq_true, beq_iff_eq,
    decide_eq_true_eq, and_assoc]

theorem option_any_iff (v : Option ℚ) :
    v.any isValidDigit = true ↔ ∃ x, v = some x ∧ isIntegerDigitInRange x := by
  cases v with
  | none => simp [Option.any]
  | some x => simp [Option.any, isValidDigit_true_iff]

theorem checkField_eq_nil (group label : String) (v : Option ℚ) :
    checkField group label v = [] ↔ v.any isValidDigit = true := by
  cases v with
  | none => simp [checkField, Option.any]
  | some x => by_cases h : isValidDigit x = true <;> simp [checkField, Option.any, h]

theorem checkField_length (group label : String) (v : Option ℚ) :
    (checkField group label v).length
      = if (!(v.any isValidDigit)) = true then 1 else 0 := by
  cases v with
  | none => simp [checkField, Option.any]
  | some x => by_cases h : isValidDigit x = true <;> simp [checkField, Option.any, h]

theorem checkField_mem (group label : String) (v : Option ℚ) (msg : String)
    (hmem : msg ∈ checkField group label v) :
    msg = group ++ " position " ++ label ++ " is required" ∨
    msg = group ++ " position " ++ label ++ " must be a digit 0-9" := by
  cases v with
  | none =>
      simp only [checkField, List.mem_singleton] at hmem
      exact Or.inl hmem
  | some x =>
      by_cases h : isValidDigit x = true <;> simp [checkField, h] at hmem
      exact Or.inr hmem

theorem validateMatrixInputs_isValid (pm : MatrixInput) (pv : VectorInput)
    (pr : ResultInput) :
    (validateMatrixInputs pm pv pr).isValid = true ↔
      pm.a.any isValidDigit = true ∧ pm.b.any isValidDigit = true ∧
      pm.c.any isValidDigit = true ∧ pm.d.any isValidDigit = true ∧
      pv.e.any isValidDigit = true ∧ pv.f.any isValidDigit = true ∧
      pr.g.any isValidDigit = true ∧ pr.h.any isValidDigit = true := by
  simp only [validateMatrixInputs, List.isEmpty_iff, List.append_eq_nil,
    checkField_eq_nil, and_assoc]

theorem validateMatrixInputs_shape (pm : MatrixInput) (pv : VectorInput)
    (pr : ResultInput) :
    ∃ es : List String,
      validateMatrixInputs pm pv pr
        = ⟨es.isEmpty, if es.isEmpty then none else some es⟩ ∧
      es = checkField "Matrix" "a" pm.a ++ checkField "Matrix" "b" pm.b ++
        checkField "Matrix" "c" pm.c ++ checkField "Matrix" "d" pm.d ++
        checkField "Vector" "e" pv.e ++ checkField "Vector" "f" pv.f ++
        checkField "Result" "g" pr.g ++ checkField "Result" "h" pr.h :=
  ⟨_, rfl, rfl⟩

theorem validateCompleteGuess_split (pm : MatrixInput) (pv : VectorInput)
    (pr : ResultInput) :
    (validateCompleteGuess pm pv pr).isValid = true ↔
      ((validateMatrixInputs pm pv pr).isValid = true ∧
        validateMatrixMultiplication (castMatrix pm) (castVector pv)
          (castResult pr) = true) := by
  simp only [validateCompleteGuess]
  by_cases h1 : (validateMatrixInputs pm pv pr).isValid = true
  · by_cases h2 : validateMatrixMultiplication (castMatrix pm) (castVector pv)
        (castResult pr) = true
    · simp [h1, h2]
    · simp only [Bool.not_eq_true] at h2
      simp [h1, h2]
  · simp only [Bool.not_eq_true] at h1
    simp [h1]

/-- C4: `validateCompleteGuess` accepts exactly when all eight fields are
present integer digits in range and the result pair satisfies
`g = a*e + b*f` and `h = c*e + d*f`; acceptance means no errors; any
rejection carries a non-empty error list; a field rejection returns the
field validation verbatim, with one message per violated field drawn from
the per-field defect messages, the arithmetic never being consulted; an
arithmetic rejection carries exactly the one generic message, distinct
from every per-field defect.  (Totality of the embedding models the
function never throwing.) -/
theorem C4_validateCompleteGuess (pm : MatrixInput) (pv : VectorInput)
    (pr : ResultInput) :
    ((validateCompleteGuess pm pv pr).isValid = true ↔
      ∃ va vb vc vd ve vf vg vh : ℚ,
        pm.a = some va ∧ pm.b = some vb ∧ pm.c = some vc ∧ pm.d = some vd ∧
        pv.e = some ve ∧ pv.f = some vf ∧ pr.g = some vg ∧ pr.h = some vh ∧
        isIntegerDigitInRange va ∧ isIntegerDigitInRange vb ∧
        isIntegerDigitInRange vc ∧ isIntegerDigitInRange vd ∧
        isIntegerDigitInRange ve ∧ isIntegerDigitInRange vf ∧
        isIntegerDigitInRange vg ∧ isIntegerDigitInRange vh ∧
        vg = va * ve + vb * vf ∧ vh = vc * ve + vd * vf) ∧
    ((validateCompleteGuess pm pv pr).isValid = true ↔
      (validateCompleteGuess pm pv pr).errors = none) ∧
    ((validateCompleteGuess pm pv pr).isValid = false →
      ∃ es, (validateCompleteGuess pm pv pr).errors = some es ∧ es ≠ []) ∧
    ((validateMatrixInputs pm pv pr).isValid = false →
      validateCompleteGuess pm pv pr = validateMatrixInputs pm pv pr ∧
      ∃ es, (validateMatrixInputs pm pv pr).errors = some es ∧
        es.length = [pm.a, pm.b, pm.c, pm.d, pv.e, pv.f, pr.g, pr.h].countP
          (fun v => !(v.any isValidDigit)) ∧
        ∀ msg ∈ es, msg ∈ fieldDefectMessages) ∧
    ((validateMatrixInputs pm pv pr).isValid = true →
      validateMatrixMultiplication (castMatrix pm) (castVector pv)
        (castResult pr) = false →
      (validateCompleteGuess pm pv pr).errors = some [mathErrorMessage] ∧
      mathErrorMessage ∉ fieldDefectMessages) := by
  refine ⟨?_, ?_, ?_, ?_, ?_⟩
  · rw [validateCompleteGuess_split, validateMatrixInputs_isValid]
    constructor
    · rintro ⟨⟨h1, h2, h3, h4, h5, h6, h7, h8⟩, hmath⟩
      obtain ⟨va, ha, hra⟩ := (option_any_iff _).mp h1
      obtain ⟨vb, hb, hrb⟩ := (option_any_iff _).mp h2
      obtain ⟨vc, hc, hrc⟩ := (option_any_iff _).mp h3
      obtain ⟨vd, hd, hrd⟩ := (option_any_iff _).mp h4
      obtain ⟨ve, he, hre⟩ := (option_any_iff _).mp h5
      obtain ⟨vf, hf, hrf⟩ := (option_any_iff _).mp h6
      obtain ⟨vg, hg, hrg⟩ := (option_any_iff _).mp h7
      obtain ⟨vh, hh, hrh⟩ := (option_any_iff _).mp h8
      simp only [validateMatrixMultiplication, castMatrix, castVector, castResult,
        ha, hb, hc, hd, he, hf, hg, hh, Option.getD_some, Bool.and_eq_true,
        decide_eq_true_eq] at hmath
      exact ⟨va, vb, vc, vd, ve, vf, vg, vh, ha, hb, hc, hd, he, hf, hg, hh,
        hra, hrb, hrc, hrd, hre, hrf, hrg, hrh, hmath.1.symm, hmath.2.symm⟩
    · rintro ⟨va, vb, vc, vd, ve, vf, vg, vh, ha, hb, hc, hd, he, hf, hg, hh,
        hra, hrb, hrc, hrd, hre, hrf, hrg, hrh, hgeq, hheq⟩
      refine ⟨⟨(option_any_iff _).mpr ⟨va, ha, hra⟩,
        (option_any_iff _).mpr ⟨vb, hb, hrb⟩,
        (option_any_iff _).mpr ⟨vc, hc, hrc⟩,
        (option_any_iff _).mpr ⟨vd, hd, hrd⟩,
        (option_any_iff _).mpr ⟨ve, he, hre⟩,
        (option_any_iff _).mpr ⟨vf, hf, hrf⟩,
        (option_any_iff _).mpr ⟨vg, hg, hrg⟩,
        (option_any_iff _).mpr ⟨vh, hh, hrh⟩⟩, ?_⟩
      simp [validateMatrixMultiplication, castMatrix, castVector, castResult,
        ha, hb, hc, hd, he, hf, hg, hh, hgeq, hheq]
  · obtain ⟨es, hshape, -⟩ := validateMatrixInputs_shape pm pv pr
    simp only [validateCompleteGuess, hshape]
    by_cases hE : es.isEmpty = true
    · by_cases h2 : validateMatrixMultiplication (castMatrix pm) (castVector pv)
          (castResult pr) = true
      · simp [hE, h2]
      · simp only [Bool.not_eq_true] at h2
        simp [hE, h2]
    · simp only [Bool.not_eq_true] at hE
      simp [hE]
  · intro hbad
    obtain ⟨es, hshape, -⟩ := validateMatrixInputs_shape pm pv pr
    by_cases hE : es.isEmpty = true
    · by_cases h2 : validateMatrixMultiplication (castMatrix pm) (castVector pv)
          (castResult pr) = true
      · exfalso
        simp [validateCompleteGuess, hshape, hE, h2] at hbad
      · simp only [Bool.not_eq_true] at h2
        refine ⟨[mathErrorMessage], ?_, by simp⟩
        simp [validateCompleteGuess, hshape, hE, h2]
    · simp only [Bool.not_eq_true] at hE
      refine ⟨es, ?_, ?_⟩
      · simp [validateCompleteGuess, hshape, hE]
      · intro hnil
        rw [hnil] at hE
        simp at hE
  · intro hbad
    obtain ⟨es, hshape, hEdef⟩ := validateMatrixInputs_shape pm pv pr
    have hE : es.isEmpty = false := by
      rw [hshape] at hbad
      simpa using hbad
    refine ⟨?_, es, ?_, ?_, ?_⟩
    · simp [validateCompleteGuess, hshape, hE]
    · simp [hshape, hE]
    · subst hEdef
      simp only [List.length_append, checkField_length, List.countP_cons,
        List.countP_nil]
      omega
    · intro msg hmsg
      subst hEdef
      simp only [List.mem_append] at hmsg
      rcases hmsg with (((((((h | h) | h) | h) | h) | h) | h) | h) <;>
        rcases checkField_mem _ _ _ _ h with rfl | rfl <;> decide
  · intro hok hmathbad
    obtain ⟨es, hshape, -⟩ := validateMatrixInputs_shape pm pv pr
    have hE : es.isEmpty = true := by
      rw [hshape] at hok
      simpa using hok
    refine ⟨?_, by decide⟩
    simp [validateCompleteGuess, hshape, hE, hmathbad]

/-- Witness for C4: a guess with a missing matrix field is rejected with
the field validation returned verbatim. -/
theorem C4_witness :
    validateCompleteGuess ⟨none, some 1, some 2, some 3⟩ ⟨some 4, some 5⟩
        ⟨some 6, some 7⟩
      = validateMatrixInputs ⟨none, some 1, some 2, some 3⟩ ⟨some 4, some 5⟩
        ⟨some 6, some 7⟩ :=
  ((C4_validateCompleteGuess ⟨none, some 1, some 2, some 3⟩ ⟨some 4, some 5⟩
      ⟨some 6, some 7⟩).2.2.2.1 (by decide)).1

/-! ## Helper lemmas for the session state machine -/

theorem submitGuess_not_playing (s : GameState) (matrix : Matrix2x2)
    (vector : Vector2x1) (result : Result2x1)
    (h : s.status ≠ GameStatus.playing) :
    submitGuess s matrix vector result = s := by
  simp only [submitGuess, if_pos h]

theorem runSubmits_not_playing : ∀ (evs : List SubmitEvent) (s : GameState),
    s.status ≠ GameStatus.playing → runSubmits s evs = s
  | [], _, _ => rfl
  | ev :: evs, s, h => by
      simp only [runSubmits, List.foldl_cons, submitGuess_not_playing s _ _ _ h]
      exact runSubmits_not_playing evs s h

theorem submitGuess_step_invariant (s : GameState) (matrix : Matrix2x2)
    (vector : Vector2x1) (result : Result2x1)
    (h6 : s.guesses.length ≤ 6)
    (h5 : s.status = GameStatus.playing → s.guesses.length ≤ 5) :
    (submitGuess s matrix vector result).guesses.length ≤ 6 ∧
    ((submitGuess s matrix vector result).status = GameStatus.playing →
      (submitGuess s matrix vector result).guesses.length ≤ 5) := by
  by_cases hp : s.status = GameStatus.playing
  · have hlen := h5 hp
    have hcond : ¬ s.status ≠ GameStatus.playing := by simp [hp]
    simp only [submitGuess, if_neg hcond]
    by_cases hwin : isWinningGuess (attachFeedback matrix vector result s.puzzle)
        s.puzzle = true
    · simp only [hwin, if_true, Bool.true_or]
      constructor
      · simp only [List.length_append, List.length_singleton]
        omega
      · intro hfalse
        simp at hfalse
    · simp only [Bool.not_eq_true] at hwin
      simp only [hwin, if_false, Bool.false_or]
      by_cases hgo : decide (6 ≤ (s.guesses ++
          [attachFeedback matrix vector result s.puzzle]).length) = true
      · simp only [hgo, if_true]
        constructor
        · simp only [decide_eq_true_eq, List.length_append,
            List.length_singleton] at hgo ⊢
          omega
        · intro hfalse
          simp at hfalse
      · simp only [Bool.not_eq_true] at hgo
        simp only [hgo, if_false]
        simp only [decide_eq_false_iff_not, List.length_append,
          List.length_singleton] at hgo ⊢
        constructor <;> omega
  · rw [submitGuess_not_playing s matrix vector result hp]
    exact ⟨h6, h5⟩

theorem runSubmits_invariant : ∀ (evs : List SubmitEvent) (s : GameState),
    s.guesses.length ≤ 6 →
    (s.status = GameStatus.playing → s.guesses.length ≤ 5) →
    (runSubmits s evs).guesses.length ≤ 6 ∧
      ((runSubmits s evs).status = GameStatus.playing →
        (runSubmits s evs).guesses.length ≤ 5)
  | [], s, h6, h5 => ⟨h6, h5⟩
  | ev :: evs, s, h6, h5 => by
      simp only [runSubmits, List.foldl_cons]
      have hstep := submitGuess_step_invariant s ev.1 ev.2.1 ev.2.2 h6 h5
      exact runSubmits_invariant evs (submitGuess s ev.1 ev.2.1 ev.2.2)
        hstep.1 hstep.2

/-- C7: submitting while `playing` appends the guess carrying feedback
freshly computed by `generateFeedback` against the session's puzzle,
recomputes the tracker from the full new history, and sets the status:
`won` whenever the guess wins regardless of remaining attempts, else
`lost` once the new history length reaches 6, else still `playing` with
the current-attempt index advanced by exactly one. -/
theorem C7_submitGuess_playing (state : GameState) (matrix : Matrix2x2)
    (vector : Vector2x1) (result : Result2x1)
    (hplay : state.status = GameStatus.playing) :
    (submitGuess state matrix vector result).guesses
      = state.guesses ++ [attachFeedback matrix vector result state.puzzle] ∧
    (attachFeedback matrix vector result state.puzzle).feedback
      = generateFeedback ⟨matrix, vector, result, [], 0⟩ state.puzzle ∧
    (submitGuess state matrix vector result).digitTracker
      = calculateDigitTracker
          (state.guesses ++ [attachFeedback matrix vector result state.puzzle]) ∧
    (isWinningGuess (attachFeedback matrix vector result state.puzzle)
        state.puzzle = true →
      (submitGuess state matrix vector result).status = GameStatus.won) ∧
    (isWinningGuess (attachFeedback matrix vector result state.puzzle)
        state.puzzle = false →
      6 ≤ state.guesses.length + 1 →
      (submitGuess state matrix vector result).status = GameStatus.lost) ∧
    (isWinningGuess (attachFeedback matrix vector result state.puzzle)
        state.puzzle = false →
      state.guesses.length + 1 < 6 →
      (submitGuess state matrix vector result).status = GameStatus.playing ∧
      (submitGuess state matrix vector result).currentGuess
        = state.currentGuess + 1) := by
  have hcond : ¬ state.status ≠ GameStatus.playing := by simp [hplay]
  simp only [submitGuess, if_neg hcond]
  refine ⟨by trivial, by trivial, by trivial, ?_, ?_, ?_⟩
  · intro hwin
    simp [hwin]
  · intro hwin hlen
    have hgo : 6 ≤ (state.guesses ++
        [attachFeedback matrix vector result state.puzzle]).length := by
      simp only [List.length_append, List.length_singleton]
      omega
    simp [hwin, hgo]
    omega
  · intro hwin hlen
    have hgo : ¬ 6 ≤ (state.guesses ++
        [attachFeedback matrix vector result state.puzzle]).length := by
      simp only [List.length_append, List.length_singleton]
      omega
    simp [hwin, hgo]
    omega

/-- Witness for C7: submitting the winning guess on the initial session
wins it. -/
theorem C7_witness :
    (submitGuess initialGameState ⟨2, 1, 1, 3⟩ ⟨3, 2⟩ ⟨8, 9⟩).status
      = GameStatus.won :=
  (C7_submitGuess_playing initialGameState ⟨2, 1, 1, 3⟩ ⟨3, 2⟩ ⟨8, 9⟩
    rfl).2.2.2.1 (by decide)

/-- C8: submitting on a `won` or `lost` session leaves the state unchanged;
hence over any event sequence from the initial state, once the status
leaves `playing` it never returns, and the history length never exceeds
six. -/
theorem C8_terminal_no_op (s : GameState) (matrix : Matrix2x2)
    (vector : Vector2x1) (result : Result2x1) (evs1 evs2 : List SubmitEvent) :
    ((s.status = GameStatus.won ∨ s.status = GameStatus.lost) →
      submitGuess s matrix vector result = s) ∧
    ((runSubmits initialGameState evs1).status ≠ GameStatus.playing →
      (runSubmits initialGameState (evs1 ++ evs2)).status ≠ GameStatus.playing) ∧
    (runSubmits initialGameState evs1).guesses.length ≤ 6 := by
  refine ⟨?_, ?_, ?_⟩
  · intro h
    apply submitGuess_not_playing
    rcases h with h | h <;> simp [h]
  · intro hterm
    have hsplit : runSubmits initialGameState (evs1 ++ evs2)
        = runSubmits (runSubmits initialGameState evs1) evs2 := by
      simp [runSubmits, List.foldl_append]
    rw [hsplit, runSubmits_not_playing evs2 _ hterm]
    exact hterm
  · exact (runSubmits_invariant evs1 initialGameState (by simp [initialGameState])
      (fun _ => by simp [initialGameState])).1

/-- Witness for C8: a submission on a won session is a no-op. -/
theorem C8_witness :
    submitGuess ⟨TEST_PUZZLE, [], 0, GameStatus.won, []⟩ ⟨1, 1, 1, 1⟩ ⟨1, 1⟩ ⟨1, 1⟩
      = ⟨TEST_PUZZLE, [], 0, GameStatus.won, []⟩ :=
  (C8_terminal_no_op ⟨TEST_PUZZLE, [], 0, GameStatus.won, []⟩ ⟨1, 1, 1, 1⟩ ⟨1, 1⟩
    ⟨1, 1⟩ [] []).1 (Or.inl rfl)

/-- C5: in every reachable session state, every guess in the accepted
history is arithmetically consistent (its result pair equals matrix times
vector), and the tracker is determined by that all-consistent history (it
is the recomputation from the full history, or the initial empty map when
no guess was ever accepted) — so a guess with mismatched arithmetic is
never appended and never affects the tracker. -/
theorem C5_reachable_history_consistent (s : GameState) (hreach : Reachable s) :
    (∀ guess ∈ s.guesses, arithmeticallyConsistent guess) ∧
    (s.digitTracker = calculateDigitTracker s.guesses ∨
      (s.guesses = [] ∧ s.digitTracker = [])) := by
  induction hreach with
  | init =>
      refine ⟨?_, Or.inr ⟨rfl, rfl⟩⟩
      intro guess hguess
      simp [initialGameState] at hguess
  | @submit s matrix vector result hs ih =>
      simp only [submitFromUI]
      by_cases hval : (validateCompleteGuess
          ⟨some matrix.a, some matrix.b, some matrix.c, some matrix.d⟩
          ⟨some vector.e, some vector.f⟩
          ⟨some result.g, some result.h⟩).isValid = true
      · rw [if_pos hval]
        by_cases hp : s.status = GameStatus.playing
        · have hcond : ¬ s.status ≠ GameStatus.playing := by simp [hp]
          simp only [submitGuess, if_neg hcond]
          constructor
          · intro guess hguess
            simp only [List.mem_append, List.mem_singleton] at hguess
            rcases hguess with hmem | rfl
            · exact ih.1 guess hmem
            · have hmath := ((validateCompleteGuess_split _ _ _).mp hval).2
              simp only [validateMatrixMultiplication, castMatrix, castVector,
                castResult, Option.getD_some, Bool.and_eq_true,
                decide_eq_true_eq] at hmath
              exact ⟨hmath.1.symm, hmath.2.symm⟩
          · exact Or.inl (by trivial)
        · rw [submitGuess_not_playing s matrix vector result hp]
          exact ih
      · rw [if_neg hval]
        exact ih
  | reset hs ih =>
      refine ⟨?_, Or.inr ⟨rfl, rfl⟩⟩
      intro guess hguess
      simp [initialGameState] at hguess

/-- Witness for C5 at the initial reachable state. -/
theorem C5_witness :
    initialGameState.digitTracker
        = calculateDigitTracker initialGameState.guesses ∨
      (initialGameState.guesses = [] ∧ initialGameState.digitTracker = []) :=
  (C5_reachable_history_consistent initialGameState Reachable.init).2

/-- Witness for C9: 7 is accepted as a digit, 10 is rejected. -/
theorem C9_witness :
    isValidDigit ((7 : ℤ) : ℚ) = true ∧ isValidDigit (10 : ℚ) = false :=
  ⟨C9_digit_domain_inconsistent.2.1 7 (by decide) (by decide),
   C9_digit_domain_inconsistent.2.2.1 10 (by decide)⟩

end Matrixle
